import Mathlib

/-!
Verification of the Code Wizard Ollama client against its specification.

The definitions below are a shallow embedding of the TypeScript sources:
* `src/services/ollamaService.ts` — connection probing (`isOllamaRunning`),
  endpoint management (`setEndpoint`) and the streaming completion loop
  (`streamCompletion`);
* `src/services/commandService.ts` — command extraction from model output
  (`parseCommandsFromAI`);
* `src/components/CodeWizard.tsx` — the pull-model handler
  (`handleOllamaPullCommand`) and the free-text prompt handler
  (`handleAICommand`).

JavaScript strings are modelled as `List Char`; network effects are made
explicit by passing the responses the network would deliver as arguments and
by returning the number of HTTP requests a call performs.  Timers are
collapsed: a handler driven by `setInterval`/`setTimeout` is modelled by the
sequence of output entries it has appended once it has run to completion.
-/

set_option autoImplicit false

namespace CodeWizard

/-- Shorthand: the character list of a string literal. -/
def str (s : String) : List Char := s.toList

/-- The JavaScript whitespace class: the character set matched by the regex
class `\s` and stripped by `String.prototype.trim`, namely TAB, LF, VT, FF,
CR, SP, NBSP, OGHAM SPACE MARK, the EN QUAD .. HAIR SPACE range, LINE and
PARAGRAPH SEPARATOR, NARROW NO-BREAK SPACE, MEDIUM MATHEMATICAL SPACE,
IDEOGRAPHIC SPACE and ZERO WIDTH NO-BREAK SPACE. -/
def isWsChar (c : Char) : Bool :=
  [9, 10, 11, 12, 13, 32, 160, 5760,
   8192, 8193, 8194, 8195, 8196, 8197, 8198, 8199, 8200, 8201, 8202,
   8232, 8233, 8239, 8287, 12288, 65279].contains c.toNat

/-- Model of JavaScript `String.prototype.trim`: strip leading and trailing
whitespace. -/
def trimChars (l : List Char) : List Char :=
  ((l.dropWhile isWsChar).reverse.dropWhile isWsChar).reverse

/-- Model of JavaScript `String.prototype.split` at a newline separator.
Splitting the empty string gives `[""]`, hence the base case `[[]]`. -/
def splitOnNl : List Char → List (List Char)
  | [] => [[]]
  | c :: cs =>
    let r := splitOnNl cs
    if c = '\n' then [] :: r
    else
      match r with
      | [] => [[c]]
      | h :: t => (c :: h) :: t

/-! ## Connection manager (`src/services/ollamaService.ts`) -/

/-- The mutable fields of the `OllamaService` class.  `defaultOptions`
(model name, GPU flag, floating-point temperature, token limit) is omitted:
no claim concerns it and it is never read by the operations embedded here. -/
structure OllamaService where
  baseUrl : String
  isRunning : Bool
  currentWorkingDirectory : String
deriving DecidableEq, Repr

/-- The state built by the `OllamaService` constructor with its default
`baseUrl` argument (`http://localhost:11434`). -/
def OllamaService.init : OllamaService :=
  { baseUrl := "http://localhost:11434"
    isRunning := false
    currentWorkingDirectory := "/" }

/-- Outcome of one `fetch` of `{baseUrl}/api/tags`: either an HTTP status
code, or a thrown network/timeout error. -/
inductive FetchResult where
  | ok (status : Nat)
  | fetchError
deriving DecidableEq, Repr

/-- What one call of `isOllamaRunning` (the probe) produces: its boolean
result, the updated service state, the number of HTTP requests it performed
and the list of delays (in ms) it waited between attempts. -/
structure ProbeOutcome where
  result : Bool
  state : OllamaService
  requests : Nat
  delays : List Nat
deriving DecidableEq, Repr

/-- `isOllamaRunning` from `ollamaService.ts` (lines 62–75): performs exactly
one GET of `{baseUrl}/api/tags`; on a response it sets
`isRunning := (status == 200)` and returns that; on a thrown error it sets
`isRunning := false` and returns false.  There is no retry loop and no
waiting, so `requests = 1` and `delays = []` in every case. -/
def isOllamaRunning (s : OllamaService) (r : FetchResult) : ProbeOutcome :=
  match r with
  | .ok status =>
    let run := status == 200
    { result := run, state := { s with isRunning := run }, requests := 1, delays := [] }
  | .fetchError =>
    { result := false, state := { s with isRunning := false }, requests := 1, delays := [] }

/-- A sequence of `isOllamaRunning` calls, threading the service state:
returns the final state, the list of probe results, and the total number of
HTTP requests performed. -/
def probeSeq (s : OllamaService) : List FetchResult → OllamaService × List Bool × Nat
  | [] => (s, [], 0)
  | r :: rs =>
    let o := isOllamaRunning s r
    let rest := probeSeq o.state rs
    (rest.1, o.result :: rest.2.1, o.requests + rest.2.2)

/-- `setEndpoint` from `ollamaService.ts` (lines 42–44): a bare assignment
`this.baseUrl = endpoint`, with no validation and no other state change. -/
def setEndpoint (s : OllamaService) (endpoint : String) : OllamaService :=
  { s with baseUrl := endpoint }

/-! ## Streaming completion (`streamCompletion`, lines 197–267)

The body of `streamCompletion` after its `isOllamaRunning` guard: a loop
reading byte chunks, splitting each decoded chunk on newlines, `JSON.parse`ing
each non-blank line and invoking `onChunk(data.response, data.done)`.
The call sequence delivered to `onChunk` is modelled explicitly. -/

/-- The values `JSON.parse` can produce.  A number is kept as its source
lexeme: the claims below depend on numbers only through truthiness, and the
IEEE-754 double the lexeme denotes is outside the model (see `jsTruthy`). -/
inductive Json where
  | null
  | boolean (b : Bool)
  | number (lexeme : List Char)
  | string (s : List Char)
  | array (elems : List Json)
  | object (fields : List (List Char × Json))

/-- JSON insignificant whitespace: exactly space, TAB, LF and CR
(RFC 8259; narrower than the JavaScript `\s` class). -/
def jsonWs (c : Char) : Bool :=
  c = ' ' || c = '\t' || c = '\n' || c = '\r'

/-- Skip JSON insignificant whitespace. -/
def skipJsonWs (l : List Char) : List Char :=
  l.dropWhile jsonWs

/-- Value of a hexadecimal digit. -/
def hexVal (c : Char) : Option Nat :=
  if '0' ≤ c ∧ c ≤ '9' then some (c.toNat - 48)
  else if 'a' ≤ c ∧ c ≤ 'f' then some (c.toNat - 87)
  else if 'A' ≤ c ∧ c ≤ 'F' then some (c.toNat - 55)
  else none

/-- Decimal digit test. -/
def isDigitChar (c : Char) : Bool :=
  '0' ≤ c && c ≤ '9'

/-- The body of a JSON string after its opening quote: decodes the escape
sequences `\" \\ \/ \b \f \n \r \t \uXXXX` and rejects unescaped control
characters and unknown escapes, as `JSON.parse` does.  Model boundary: a
`\u` escape denoting a lone UTF-16 surrogate half is not a Unicode scalar
and is mapped through `Char.ofNat` (which sends invalid code points to the
NUL character) rather than kept as a bare code unit. -/
def parseJsonString : List Char → Option (List Char × List Char)
  | [] => none
  | c :: rest =>
    if c = '"' then some ([], rest)
    else if c = '\\' then
      match rest with
      | [] => none
      | e :: rest2 =>
        if e = '"' then (parseJsonString rest2).map (fun p => ('"' :: p.1, p.2))
        else if e = '\\' then (parseJsonString rest2).map (fun p => ('\\' :: p.1, p.2))
        else if e = '/' then (parseJsonString rest2).map (fun p => ('/' :: p.1, p.2))
        else if e = 'b' then (parseJsonString rest2).map (fun p => ('\x08' :: p.1, p.2))
        else if e = 'f' then (parseJsonString rest2).map (fun p => ('\x0c' :: p.1, p.2))
        else if e = 'n' then (parseJsonString rest2).map (fun p => ('\n' :: p.1, p.2))
        else if e = 'r' then (parseJsonString rest2).map (fun p => ('\r' :: p.1, p.2))
        else if e = 't' then (parseJsonString rest2).map (fun p => ('\t' :: p.1, p.2))
        else if e = 'u' then
          match rest2 with
          | h1 :: h2 :: h3 :: h4 :: rest3 =>
            match hexVal h1, hexVal h2, hexVal h3, hexVal h4 with
            | some a, some b, some c2, some d =>
              (parseJsonString rest3).map
                (fun p => (Char.ofNat (((a * 16 + b) * 16 + c2) * 16 + d) :: p.1, p.2))
            | _, _, _, _ => none
          | _ => none
        else none
    else if c.toNat < 32 then none
    else (parseJsonString rest).map (fun p => (c :: p.1, p.2))

/-- A JSON number starting at the head of the input: `-?(0|[1-9][0-9]*)`
followed by an optional fraction and an optional exponent.  Returns the
lexeme and the rest of the input. -/
def parseJsonNumber (l : List Char) : Option (List Char × List Char) :=
  let minusPart : List Char × List Char :=
    match l with
    | '-' :: r => (['-'], r)
    | _ => ([], l)
  match minusPart.2 with
  | [] => none
  | c :: r =>
    if c = '0' ∨ ¬ (isDigitChar c = true) then
      if c = '0' then
        afterInt (minusPart.1 ++ ['0']) r
      else none
    else
      let ds := r.takeWhile isDigitChar
      afterInt (minusPart.1 ++ c :: ds) (r.drop ds.length)
where
  /-- Optional fraction, then optional exponent. -/
  afterInt (lex : List Char) (l : List Char) : Option (List Char × List Char) :=
    match l with
    | '.' :: r =>
      let ds := r.takeWhile isDigitChar
      if ds.isEmpty then none
      else afterFrac (lex ++ '.' :: ds) (r.drop ds.length)
    | _ => afterFrac lex l
  /-- Optional exponent. -/
  afterFrac (lex : List Char) (l : List Char) : Option (List Char × List Char) :=
    match l with
    | e :: r =>
      if e = 'e' ∨ e = 'E' then
        let signPart : List Char × List Char :=
          match r with
          | s :: r2 => if s = '+' ∨ s = '-' then ([s], r2) else ([], r)
          | [] => ([], r)
        let ds := signPart.2.takeWhile isDigitChar
        if ds.isEmpty then none
        else some (lex ++ e :: signPart.1 ++ ds, signPart.2.drop ds.length)
      else some (lex, e :: r)
    | [] => some (lex, [])

mutual

/-- A JSON value starting at the head of the input (whitespace already
skipped).  `fuel` bounds the recursion depth; every recursive call consumes
at least one character, so `length + 1` always suffices. -/
def parseJsonValue : Nat → List Char → Option (Json × List Char)
  | 0, _ => none
  | _ + 1, [] => none
  | fuel + 1, c :: r =>
    if c = '"' then (parseJsonString r).map (fun p => (.string p.1, p.2))
    else if c = '\x7b' then
      match skipJsonWs r with
      | '\x7d' :: r2 => some (.object [], r2)
      | r2 => parseJsonMembers fuel r2 []
    else if c = '[' then
      match skipJsonWs r with
      | ']' :: r2 => some (.array [], r2)
      | r2 => parseJsonElems fuel r2 []
    else if c = 't' then
      if (str "rue").isPrefixOf r then some (.boolean true, r.drop 3) else none
    else if c = 'f' then
      if (str "alse").isPrefixOf r then some (.boolean false, r.drop 4) else none
    else if c = 'n' then
      if (str "ull").isPrefixOf r then some (.null, r.drop 3) else none
    else if c = '-' ∨ isDigitChar c then
      (parseJsonNumber (c :: r)).map (fun p => (.number p.1, p.2))
    else none

/-- The members of a JSON object, after the opening brace (and after an
empty-object check), positioned at a key. -/
def parseJsonMembers : Nat → List Char → List (List Char × Json) →
    Option (Json × List Char)
  | 0, _, _ => none
  | fuel + 1, l, acc =>
    match l with
    | '"' :: r =>
      match parseJsonString r with
      | none => none
      | some (key, r2) =>
        match skipJsonWs r2 with
        | ':' :: r3 =>
          match parseJsonValue fuel (skipJsonWs r3) with
          | none => none
          | some (v, r4) =>
            match skipJsonWs r4 with
            | ',' :: r5 => parseJsonMembers fuel (skipJsonWs r5) (acc ++ [(key, v)])
            | '\x7d' :: r5 => some (.object (acc ++ [(key, v)]), r5)
            | _ => none
        | _ => none
    | _ => none

/-- The elements of a JSON array, after the opening bracket (and after an
empty-array check), positioned at a value. -/
def parseJsonElems : Nat → List Char → List Json → Option (Json × List Char)
  | 0, _, _ => none
  | fuel + 1, l, acc =>
    match parseJsonValue fuel l with
    | none => none
    | some (v, r) =>
      match skipJsonWs r with
      | ',' :: r2 => parseJsonElems fuel (skipJsonWs r2) (acc ++ [v])
      | ']' :: r2 => some (.array (acc ++ [v]), r2)
      | _ => none

end

/-- Model of `JSON.parse`: leading and trailing insignificant whitespace
around one complete JSON value; anything else throws (`none`). -/
def jsonParse (l : List Char) : Option Json :=
  match parseJsonValue (l.length + 1) (skipJsonWs l) with
  | none => none
  | some (v, rest) => if skipJsonWs rest = [] then some v else none

/-- JavaScript property access `v[key]` on a decoded JSON value: object
fields by key — with the later of duplicate keys winning, as in
`JSON.parse` — and `undefined` (modelled as `none`) on every non-object. -/
def jsMember (v : Json) (key : List Char) : Option Json :=
  match v with
  | .object fields => (fields.reverse.find? (fun f => f.1 == key)).map (fun f => f.2)
  | _ => none

/-- Is the significand of a JSON number lexeme all zeroes?  Exactly then the
number denotes mathematical zero. -/
def numSignificandZero (lex : List Char) : Bool :=
  ((lex.takeWhile (fun c => c ≠ 'e' ∧ c ≠ 'E')).filter isDigitChar).all (fun c => c = '0')

/-- JavaScript truthiness of a possibly-undefined decoded JSON value:
`undefined`, `null`, `false`, zero numbers and the empty string are falsy;
everything else is truthy.  Model boundary: a number is treated as falsy
exactly when its significand is all zeroes; the IEEE-754 rounding of
`JSON.parse` (under which, e.g., the extreme literal `1e-400` underflows to
zero) is floating-point behaviour outside the model. -/
def jsTruthy : Option Json → Bool
  | none => false
  | some .null => false
  | some (.boolean b) => b
  | some (.number lex) => !numSignificandZero lex
  | some (.string s) => !s.isEmpty
  | some (.array _) => true
  | some (.object _) => true

/-- `JSON.parse(line)` followed by the property accesses of the source: when
the parse throws, or when it yields `null` — on which `data.response`
throws a `TypeError` — the `try` block aborts into the same `catch`, so both
are `none` here. -/
def jsonDecodeLine (l : List Char) : Option Json :=
  match jsonParse l with
  | none => none
  | some .null => none
  | some v => some v

mutual

/-- JavaScript string coercion of a decoded JSON value, as performed by
`fullResponse += chunk`: strings verbatim, `null`/booleans by name, arrays
via `Array.prototype.join` with comma (rendering `null` elements empty),
objects as `[object Object]`.  Model boundary: a number is rendered as its
source lexeme; JavaScript renders the IEEE-754 double it denotes, which
coincides for the canonical integer and decimal lexemes but is
floating-point behaviour outside the model. -/
def jsonToString : Json → List Char
  | .null => str "null"
  | .boolean true => str "true"
  | .boolean false => str "false"
  | .number lex => lex
  | .string s => s
  | .array es => jsonArrayJoin es
  | .object _ => str "[object Object]"

/-- `Array.prototype.join` with the default comma separator. -/
def jsonArrayJoin : List Json → List Char
  | [] => []
  | [e] => jsonElemString e
  | e :: e2 :: rest => jsonElemString e ++ ',' :: jsonArrayJoin (e2 :: rest)

/-- One array element under `join`: `null` renders empty. -/
def jsonElemString : Json → List Char
  | .null => []
  | v => jsonToString v

end

/-- String coercion of a possibly-undefined value: `undefined` renders as
the text `undefined`. -/
def jsToString : Option Json → List Char
  | none => str "undefined"
  | some v => jsonToString v

/-- `chunk.split(newline).filter(line => line.trim())`: the lines of one decoded
chunk that are non-blank after trimming (the untrimmed lines are what is
parsed). -/
def chunkLines (chunk : List Char) : List (List Char) :=
  (splitOnNl chunk).filter (fun l => !(trimChars l).isEmpty)

/-- The inner `for (const line of lines)` loop wrapped in `try/catch`:
processes the lines of one chunk, returning the `onChunk` calls it makes —
each call recorded as the pair of JavaScript values
`(data.response, data.done)` handed to the callback, with `undefined` as
`none` — and whether it set `done = true`.
* a line whose `JSON.parse` throws (or decodes to `null`, so that the
  property access throws) lands in the `catch`, which invokes
  `onChunk(chunk, false)` with the whole raw chunk, and processing of the
  chunk stops (calls already made stand);
* a line whose decoded `data.done` is truthy invokes
  `onChunk(data.response, data.done)` and breaks. -/
def processLines (chunk : List Char) : List (List Char) →
    List (Option Json × Option Json) × Bool
  | [] => ([], false)
  | l :: rest =>
    match jsonDecodeLine l with
    | none => ([(some (.string chunk), some (.boolean false))], false)
    | some v =>
      let r := jsMember v (str "response")
      let d := jsMember v (str "done")
      if jsTruthy d then ([(r, d)], true)
      else
        let p := processLines chunk rest
        ((r, d) :: p.1, p.2)

/-- Processing of one decoded byte chunk. -/
def processChunk (chunk : List Char) : List (Option Json × Option Json) × Bool :=
  processLines chunk (chunkLines chunk)

/-- The `Error: ${error}` message the outer `catch` hands to `onChunk`. -/
def errorText (e : List Char) : List Char := str "Error: " ++ e

/-- The `onChunk` call sequence of the read loop of `streamCompletion`, given the
finite list of byte chunks the reader delivers and, optionally, the text of
a transport error thrown once those chunks are exhausted:
* when the reader reports end of stream, `onChunk("", true)` is invoked;
* when the reader throws, the outer `catch` invokes
  `onChunk("Error: ...", true)`;
* a chunk that sets `done = true` ends the loop with no further calls. -/
def streamLoop (chunks : List (List Char)) (err : Option (List Char)) :
    List (Option Json × Option Json) :=
  match chunks with
  | [] =>
    match err with
    | some e => [(some (.string (errorText e)), some (.boolean true))]
    | none => [(some (.string []), some (.boolean true))]
  | c :: cs =>
    let p := processChunk c
    if p.2 then p.1 else p.1 ++ streamLoop cs err

/-- `true` when the line-wise decoding of a chunk throws at some line before
any decoded object with truthy `done` — exactly the condition under which
the `catch` of the source passes the raw chunk through. -/
def failsBeforeDone : List (List Char) → Bool
  | [] => false
  | l :: rest =>
    match jsonDecodeLine l with
    | none => true
    | some v => if jsTruthy (jsMember v (str "done")) then false else failsBeforeDone rest

/-! ## Command extractor (`parseCommandsFromAI`, `commandService.ts` 76–105)

Two regex passes over the model response:
* `/` ``` `(?:bash|sh|cmd|powershell)?\s*([\s\S]*?)` ``` `/g` — fenced code
  blocks; the captured text is split on newlines, each line trimmed, and
  blank lines and lines starting with `#` or `//` are dropped;
* `/\$\s+(.+)|\>\s+(.+)/g` — shell-prompt-style fragments; the capture is
  trimmed and appended.
Both regex loops are embedded as explicit scanners with the same match
semantics (leftmost match, greedy/lazy quantifiers as in the pattern,
scanning resuming after each match). -/

/-- Does the text start with the fence ` ``` ` (three backticks)? -/
def startsTriple (l : List Char) : Bool :=
  l.take 3 = ['`', '`', '`']

/-- The lazy capture `([\s\S]*?)` followed by the closing fence: text up to
the first occurrence of ` ``` `, together with the remainder after that
fence; `none` when no closing fence exists (in which case the regex has no
further match anywhere, since everything scanned over contains no fence). -/
def takeUntilTriple : List Char → Option (List Char × List Char)
  | [] => none
  | c :: cs =>
    if startsTriple (c :: cs) then some ([], cs.drop 2)
    else
      match takeUntilTriple cs with
      | some p => some (c :: p.1, p.2)
      | none => none

/-- The optional language tag `(?:bash|sh|cmd|powershell)?` right after the
opening fence: the first listed alternative that is a prefix is consumed,
otherwise nothing is.  (The four alternatives start with distinct letters
and the rest of the pattern matches arbitrary text up to the closing fence,
so the regex engine never needs to backtrack out of this choice.) -/
def matchTag (l : List Char) : List Char :=
  if (str "bash").isPrefixOf l then l.drop 4
  else if (str "sh").isPrefixOf l then l.drop 2
  else if (str "cmd").isPrefixOf l then l.drop 3
  else if (str "powershell").isPrefixOf l then l.drop 10
  else l

/-- One match of the code-block regex: scans for an opening fence, consumes
the optional tag and the greedy `\s*`, and captures up to the closing fence.
Returns the capture and the rest of the input after the match. -/
def findOneBlock : List Char → Option (List Char × List Char)
  | [] => none
  | c :: cs =>
    if startsTriple (c :: cs) then
      let afterTag := matchTag ((c :: cs).drop 3)
      let afterWs := afterTag.dropWhile isWsChar
      match takeUntilTriple afterWs with
      | some p => some p
      | none => none
    else findOneBlock cs

/-- The `while ((match = codeBlockRegex.exec(response)) !== null)` loop: all
captures, in order.  `fuel` bounds the recursion; every match consumes at
least the six fence characters, so `length + 1` steps always suffice. -/
def findBlocksAux : Nat → List Char → List (List Char)
  | 0, _ => []
  | fuel + 1, l =>
    match findOneBlock l with
    | none => []
    | some (cap, rest) => cap :: findBlocksAux fuel rest

/-- All code-block captures of the response, in order. -/
def findBlocks (l : List Char) : List (List Char) :=
  findBlocksAux (l.length + 1) l

/-- Should a trimmed line of a code block be kept?
`line && !line.startsWith(hash) && !line.startsWith(slash-slash)`. -/
def keepLine (l : List Char) : Bool :=
  !l.isEmpty && !(['#'].isPrefixOf l) && !(['/', '/'].isPrefixOf l)

/-- The contribution of one code block: lines, trimmed, blank and comment lines
dropped. -/
def cleanLines (block : List Char) : List (List Char) :=
  ((splitOnNl block).map trimChars).filter keepLine

/-- `\s+(.+)` after a prompt marker, with the greedy backtracking of the
regex engine: `\s+` takes the longest whitespace run that still leaves at
least one character matchable by `.` (any character except newline).
Returns the capture of `(.+)` and the rest of the input after the match. -/
def promptCapture (tail : List Char) : Option (List Char × List Char) :=
  let w := tail.takeWhile isWsChar
  let t := tail.drop w.length
  if w.isEmpty then none
  else if !t.isEmpty then
    let cap := t.takeWhile (fun ch => ch ≠ '\n')
    some (cap, t.drop cap.length)
  else
    let r := (w.drop 1).reverse
    let nls := r.takeWhile (fun ch => ch = '\n')
    match r.drop nls.length with
    | [] => none
    | c :: _ => some ([c], nls.reverse)

/-- The `while ((match = commandPromptRegex.exec(response)) !== null)` loop
for `/\$\s+(.+)|\>\s+(.+)/g`: scans character by character; at a `$` or `>`
it attempts `\s+(.+)` and, on success, records the capture and resumes after
the match.  `fuel` bounds the recursion; a match always consumes at least
two characters, so `length` steps suffice. -/
def scanPromptsAux : Nat → List Char → List (List Char)
  | 0, _ => []
  | _ + 1, [] => []
  | fuel + 1, c :: cs =>
    if c = '$' || c = '>' then
      match promptCapture cs with
      | some (cap, rest) => cap :: scanPromptsAux fuel rest
      | none => scanPromptsAux fuel cs
    else scanPromptsAux fuel cs

/-- All prompt-marker captures of the response, in order. -/
def scanPrompts (l : List Char) : List (List Char) :=
  scanPromptsAux (l.length + 1) l

/-- `parseCommandsFromAI` from `commandService.ts` (lines 76–105): the
cleaned lines of every code block, in block order, followed by the trimmed
prompt-marker captures, in document order.  (`match[1] || match[2]` is
always a non-empty string, so every prompt capture is pushed.) -/
def parseCommandsFromAI (response : List Char) : List (List Char) :=
  ((findBlocks response).map cleanLines).flatten
    ++ (scanPrompts response).map trimChars

/-- A document made of fenced code blocks embedded in prose: the prose
`p0`, then for each pair `(b, p)` a fenced block with content `b` followed
by the prose `p`.  This is the statement-side description of an input whose
fenced-block structure is unambiguous (prose and block contents are
backtick-free in the claims below); the extractor claim is stated over all
such documents. -/
def fencedDoc (p0 : List Char) : List (List Char × List Char) → List Char
  | [] => p0
  | (b, p) :: rest => p0 ++ str "```" ++ b ++ str "```" ++ fencedDoc p rest

/-! ## Command router handlers (`src/components/CodeWizard.tsx`)

Output entries (the `OutputItem` interface, timestamps dropped) and the two
handlers the claims concern: `handleOllamaPullCommand` (218–254) and
`handleAICommand` (257–336). -/

/-- The `type` field of an `OutputItem`. -/
inductive OutputType where
  | command
  | response
  | error
  | info
deriving DecidableEq, Repr

/-- One entry of the append-only output log (timestamp omitted). -/
structure OutputItem where
  type : OutputType
  content : List Char
deriving DecidableEq, Repr

/-- `Pulling model ${modelName}...` -/
def pullingMsg (modelName : List Char) : List Char :=
  str "Pulling model " ++ modelName ++ str "..."

/-- `Download progress: ${progress}%` -/
def progressMsg (p : Nat) : List Char :=
  str "Download progress: " ++ (Nat.repr p).toList ++ str "%"

/-- `Model ${modelName} pulled successfully.` -/
def pulledMsg (modelName : List Char) : List Char :=
  str "Model " ++ modelName ++ str " pulled successfully."

/-- The `/ollama pull (\S+)/` match on the command: at the first position
where the literal `ollama pull ` is followed by at least one non-whitespace
character, the maximal non-whitespace run is captured. -/
def findPullModel : List Char → Option (List Char)
  | [] => none
  | c :: cs =>
    if (str "ollama pull ").isPrefixOf (c :: cs) then
      let cap := ((c :: cs).drop 12).takeWhile (fun ch => !isWsChar ch)
      if cap.isEmpty then findPullModel cs else some cap
    else findPullModel cs

/-- The `setInterval` body of the pull handler, run to completion: each tick
adds 20 to `progress`, appends a progress entry while `progress <= 100`, and
on `progress >= 100` clears the interval and appends the success entry. -/
def pullTicks (modelName : List Char) (progress : Nat) : List OutputItem :=
  let prog : List OutputItem :=
    if progress + 20 ≤ 100 then [⟨.response, progressMsg (progress + 20)⟩] else []
  if 100 ≤ progress + 20 then prog ++ [⟨.response, pulledMsg modelName⟩]
  else prog ++ pullTicks modelName (progress + 20)
termination_by 100 - progress
decreasing_by omega

/-- `handleOllamaPullCommand` run to completion: the entries it appends, in
order — the initial info entry, then the interval entries.  (The state
update `setModelLoaded(true)` and the toast are outside the output log.) -/
def handleOllamaPullCommand (command : List Char) : List OutputItem :=
  let modelName := (findPullModel command).getD (str "qwen2.5-coder:14b")
  ⟨.info, pullingMsg modelName⟩ :: pullTicks modelName 0

/-- `Ollama is not running. Please start Ollama first.` -/
def notRunningMsg : List Char :=
  str "Ollama is not running. Please start Ollama first."

/-- The error text telling the user to run the default model first. -/
def notLoadedMsg : List Char :=
  str "Model is not loaded. Please run \x27ollama run qwen2.5-coder:14b\x27 first."

/-- The info text `Found <n> executable command(s). Use the Execute button
to run them.`, with the plural `s` exactly when `n > 1`. -/
def foundMsg (n : Nat) : List Char :=
  str "Found " ++ (Nat.repr n).toList ++ str " executable command"
    ++ (if n > 1 then str "s" else []) ++ str ". Use the Execute button to run them."

/-- The four canned fallback responses used when the streaming call throws. -/
def fallbackResponses : Fin 4 → List Char
  | 0 => str "```python\ndef hello_world():\n    print(\x27Hello, world!\x27)\n```"
  | 1 => str "I\x27d recommend creating a function to handle this task:"
  | 2 => str "```javascript\nasync function processData(input) \x7b\n  const result = await fetch(\x27/api/data\x27, \x7b\n    method: \x27POST\x27,\n    body: JSON.stringify(input)\n  \x7d);\n  return result.json();\n\x7d\n```"
  | 3 => str "```jsx\nimport React, \x7b useState \x7d from \x27react\x27;\n\nfunction Counter() \x7b\n  const [count, setCount] = useState(0);\n  \n  return (\n    <div>\n      <p>Count: \x7bcount\x7d</p>\n      <button onClick=\x7b() => setCount(count + 1)\x7d>Increment</button>\n    </div>\n  );\n\x7d\n```"

/-- The `onChunk` callback of `handleAICommand`: accumulates the string
coercion of every chunk into `fullResponse` and, on a call whose `done`
argument is truthy, appends the response entry and — when the command
extractor finds at least one command in the accumulated text — the
`Found ...` info entry. -/
def aiCallbackOutputs (acc : List Char) : List (Option Json × Option Json) → List OutputItem
  | [] => []
  | (c, d) :: rest =>
    let acc2 := acc ++ jsToString c
    if jsTruthy d then
      (⟨.response, acc2⟩ ::
          (if (parseCommandsFromAI acc2).length > 0
            then [⟨.info, foundMsg (parseCommandsFromAI acc2).length⟩] else []))
        ++ aiCallbackOutputs acc2 rest
    else aiCallbackOutputs acc2 rest

/-- `handleAICommand` from `CodeWizard.tsx` (lines 257–336): returns the
output entries it appends and the number of HTTP requests it performs.
* `ollamaConnected = false` → a single error entry, no network traffic;
* `modelLoaded = false` → a single error entry, no network traffic;
* otherwise the `Thinking...` info entry, then `streamCompletion` runs: its
  internal `isOllamaRunning` probe is one request (`probe`); if the probe
  fails, `streamCompletion` throws and the `catch` appends one canned
  fallback response (`fallbackIdx` stands in for `Math.random`); if it
  succeeds, the `/api/generate` POST is a second request and the
  callback   entries follow from the delivered stream. -/
def handleAICommand (ollamaConnected modelLoaded : Bool) (svc : OllamaService)
    (probe : FetchResult) (chunks : List (List Char)) (streamErr : Option (List Char))
    (fallbackIdx : Fin 4) : List OutputItem × Nat :=
  if !ollamaConnected then ([⟨.error, notRunningMsg⟩], 0)
  else if !modelLoaded then ([⟨.error, notLoadedMsg⟩], 0)
  else if (isOllamaRunning svc probe).result then
    (⟨.info, str "Thinking..."⟩ :: aiCallbackOutputs [] (streamLoop chunks streamErr), 2)
  else
    (⟨.info, str "Thinking..."⟩ :: [⟨.response, fallbackResponses fallbackIdx⟩], 1)

/-! ## Claims about the connection manager -/

/-- C1 counterexample: an endpoint whose probe fails (here: a thrown network
error) makes `isOllamaRunning` return false after exactly ONE attempt with NO
retry delays — not after 3 attempts with delays 1000 ms, 2000 ms, 4000 ms as
the claim states. -/
theorem C1_probe_counterexample :
    (isOllamaRunning .init .fetchError).result = false
    ∧ (isOllamaRunning .init .fetchError).requests = 1
    ∧ (isOllamaRunning .init .fetchError).delays = []
    ∧ (1 : Nat) ≠ 3
    ∧ ([] : List Nat) ≠ [1000, 2000, 4000] := by
  refine ⟨rfl, rfl, rfl, by decide, by decide⟩

/-- C1 amended: for every service state and every probe response that is not
HTTP 200 (thrown error or non-200 status), `isOllamaRunning` returns false
after exactly one attempt, waiting no retry delays. -/
theorem C1_probe_single_attempt (s : OllamaService) (r : FetchResult)
    (h : r ≠ .ok 200) :
    (isOllamaRunning s r).result = false
    ∧ (isOllamaRunning s r).requests = 1
    ∧ (isOllamaRunning s r).delays = [] := by
  cases r with
  | ok status =>
    have hs : status ≠ 200 := fun e => h (by rw [e])
    refine ⟨?_, rfl, rfl⟩
    simp [isOllamaRunning, hs]
  | fetchError => exact ⟨rfl, rfl, rfl⟩

/-- Witness for C1 amended at a concrete failing probe. -/
theorem C1_probe_single_attempt_witness :
    (FetchResult.fetchError ≠ FetchResult.ok 200)
    ∧ ((isOllamaRunning .init .fetchError).result = false
      ∧ (isOllamaRunning .init .fetchError).requests = 1
      ∧ (isOllamaRunning .init .fetchError).delays = []) :=
  ⟨by decide, C1_probe_single_attempt OllamaService.init FetchResult.fetchError (by decide)⟩

/-- C2 counterexample: after three consecutive failed probes a fourth
`isOllamaRunning` call still performs one HTTP request (not zero), so four
consecutive failing probes perform four requests, where the claimed
"no network call once attempts reaches 3" would allow at most three. -/
theorem C2_attempts_counterexample :
    (probeSeq .init (List.replicate 4 .fetchError)).2.2 = 4
    ∧ (isOllamaRunning (probeSeq .init (List.replicate 3 .fetchError)).1 .fetchError).requests = 1
    ∧ (4 : Nat) ≠ 3
    ∧ (1 : Nat) ≠ 0 := by
  refine ⟨rfl, rfl, by decide, by decide⟩

/-- C2 amended: the code keeps no attempts counter; every `isOllamaRunning`
call performs exactly one network request regardless of the current state,
so a sequence of n probe calls performs exactly n requests no matter how
many of them fail. -/
theorem C2_every_probe_networks :
    (∀ (s : OllamaService) (r : FetchResult), (isOllamaRunning s r).requests = 1)
    ∧ (∀ (s : OllamaService) (rs : List FetchResult), (probeSeq s rs).2.2 = rs.length) := by
  have h1 : ∀ (s : OllamaService) (r : FetchResult), (isOllamaRunning s r).requests = 1 := by
    intro s r; cases r <;> rfl
  refine ⟨h1, ?_⟩
  intro s rs
  induction rs generalizing s with
  | nil => rfl
  | cons r rs ih => simp [probeSeq, h1, ih]; omega

/-- C3 counterexample: `setEndpoint ""` does NOT leave the endpoint
unchanged — it overwrites the default endpoint with the empty string (and
likewise for a whitespace-only string). -/
theorem C3_setEndpoint_counterexample :
    OllamaService.init.baseUrl = "http://localhost:11434"
    ∧ (setEndpoint .init "").baseUrl = ""
    ∧ (setEndpoint .init "   ").baseUrl = "   "
    ∧ ("" : String) ≠ "http://localhost:11434" := by
  refine ⟨rfl, rfl, rfl, by decide⟩

/-- C3 amended: `setEndpoint` unconditionally replaces the endpoint with its
argument — empty and whitespace-only strings included — and changes nothing
else (in particular there is no attempts counter to reset). -/
theorem C3_setEndpoint_unconditional (s : OllamaService) (e : String) :
    (setEndpoint s e).baseUrl = e
    ∧ (setEndpoint s e).isRunning = s.isRunning
    ∧ (setEndpoint s e).currentWorkingDirectory = s.currentWorkingDirectory :=
  ⟨rfl, rfl, rfl⟩

/-! ## Claims about streaming -/

/-- C4: for the stream delivering the chunk `{"response":"a","done":false}`
and then the chunk `{"response":"b","done":true}`, the `onChunk` calls are
exactly `("a", false)` then `("b", true)`, and nothing follows the
`done = true` call. -/
theorem C4_streaming_two_chunks :
    streamLoop
        [str "\x7b\"response\":\"a\",\"done\":false\x7d",
         str "\x7b\"response\":\"b\",\"done\":true\x7d"] none
      = [(some (.string (str "a")), some (.boolean false)),
         (some (.string (str "b")), some (.boolean true))] := by
  rfl

/-! ## Claims about the command router handlers -/

/-- C8: whenever the connection state reports not-running
(`ollamaConnected = false`), `handleAICommand` appends exactly one output
entry, of error kind, and performs zero network requests — for every model
state, service state, probe response, stream and fallback choice. -/
theorem C8_ai_handler_not_running (modelLoaded : Bool) (svc : OllamaService)
    (probe : FetchResult) (chunks : List (List Char)) (streamErr : Option (List Char))
    (fallbackIdx : Fin 4) :
    handleAICommand false modelLoaded svc probe chunks streamErr fallbackIdx
      = ([⟨.error, notRunningMsg⟩], 0) := by
  rfl

/-- C9: `extract` on the exact input ```` "```\n# c\n\nls\n```\n$ pwd" ````
returns exactly `["ls", "pwd"]`, and on the empty string returns `[]`. -/
theorem C9_extract_examples :
    parseCommandsFromAI (str "```\n# c\n\nls\n```\n$ pwd") = [str "ls", str "pwd"]
    ∧ parseCommandsFromAI (str "") = [] := by
  exact ⟨rfl, rfl⟩

/-- C7: for every command, the pull handler run to completion appends the
initial info entry and then response entries whose embedded progress numbers
are exactly 20, 40, 60, 80, 100, in order and each as its own entry,
followed by exactly one success entry.  The explicit list exhibits that no
progress value exceeds 100. -/
theorem C7_pull_progress (command : List Char) :
    handleOllamaPullCommand command
      = ⟨.info, pullingMsg ((findPullModel command).getD (str "qwen2.5-coder:14b"))⟩ ::
        [⟨.response, progressMsg 20⟩, ⟨.response, progressMsg 40⟩,
         ⟨.response, progressMsg 60⟩, ⟨.response, progressMsg 80⟩,
         ⟨.response, progressMsg 100⟩,
         ⟨.response, pulledMsg ((findPullModel command).getD (str "qwen2.5-coder:14b"))⟩] := by
  have h : ∀ name : List Char,
      pullTicks name 0
        = [⟨.response, progressMsg 20⟩, ⟨.response, progressMsg 40⟩,
           ⟨.response, progressMsg 60⟩, ⟨.response, progressMsg 80⟩,
           ⟨.response, progressMsg 100⟩, ⟨.response, pulledMsg name⟩] := by
    intro name
    rw [pullTicks.eq_def]; norm_num
    rw [pullTicks.eq_def]; norm_num
    rw [pullTicks.eq_def]; norm_num
    rw [pullTicks.eq_def]; norm_num
    rw [pullTicks.eq_def]; norm_num
  unfold handleOllamaPullCommand
  simp only [h]

/-! ## Structure lemmas for the streaming loop -/

/-- When processing a chunk sets `done = true`, the call list of the chunk
is a sequence of calls with falsy `done` followed by one call with truthy
`done`. -/
theorem processLines_done_split (chunk : List Char) (ls : List (List Char))
    (h : (processLines chunk ls).2 = true) :
    ∃ p c, (processLines chunk ls).1 = p ++ [c]
      ∧ jsTruthy c.2 = true ∧ ∀ x ∈ p, jsTruthy x.2 = false := by
  induction ls with
  | nil => simp [processLines] at h
  | cons l rest ih =>
    cases hp : jsonDecodeLine l with
    | none => simp [processLines, hp] at h
    | some v =>
      cases hd : jsTruthy (jsMember v (str "done")) with
      | true =>
        refine ⟨[], (jsMember v (str "response"), jsMember v (str "done")), ?_, hd, by simp⟩
        simp [processLines, hp, hd]
      | false =>
        simp only [processLines, hp] at h
        simp only [hd, Bool.false_eq_true, if_false] at h
        obtain ⟨p, c, hp1, hc, hall⟩ := ih h
        refine ⟨(jsMember v (str "response"), jsMember v (str "done")) :: p, c, ?_, hc, ?_⟩
        · simp [processLines, hp, hd, hp1]
        · intro x hx
          rcases List.mem_cons.mp hx with hx | hx
          · rw [hx]; exact hd
          · exact hall x hx

/-- When processing a chunk does not set `done`, every call it makes has a
falsy `done` argument. -/
theorem processLines_notdone_all (chunk : List Char) (ls : List (List Char))
    (h : (processLines chunk ls).2 = false) :
    ∀ x ∈ (processLines chunk ls).1, jsTruthy x.2 = false := by
  induction ls with
  | nil => simp [processLines]
  | cons l rest ih =>
    cases hp : jsonDecodeLine l with
    | none =>
      simp only [processLines, hp]
      intro x hx
      rcases List.mem_cons.mp hx with hx | hx
      · rw [hx]; rfl
      · simp at hx
    | some v =>
      cases hd : jsTruthy (jsMember v (str "done")) with
      | true => simp [processLines, hp, hd] at h
      | false =>
        simp only [processLines, hp] at h ⊢
        simp only [hd, Bool.false_eq_true, if_false] at h ⊢
        intro x hx
        rcases List.mem_cons.mp hx with hx | hx
        · rw [hx]; exact hd
        · exact ih h x hx

/-- The `onChunk` sequence of any streaming run splits as calls with falsy
`done` followed by exactly one call with truthy `done`. -/
theorem streamLoop_split (chunks : List (List Char)) (err : Option (List Char)) :
    ∃ p c, streamLoop chunks err = p ++ [c]
      ∧ jsTruthy c.2 = true ∧ ∀ x ∈ p, jsTruthy x.2 = false := by
  induction chunks with
  | nil =>
    cases err with
    | none => exact ⟨[], (some (.string []), some (.boolean true)), rfl, rfl, by simp⟩
    | some e =>
      exact ⟨[], (some (.string (errorText e)), some (.boolean true)), rfl, rfl, by simp⟩
  | cons c cs ih =>
    simp only [streamLoop]
    cases hd : (processChunk c).2 with
    | true =>
      simp only [hd, if_true]
      exact processLines_done_split c (chunkLines c) hd
    | false =>
      simp only [hd, Bool.false_eq_true, if_false]
      obtain ⟨p, t, hp1, hc, hall⟩ := ih
      refine ⟨(processChunk c).1 ++ p, t, by rw [hp1, List.append_assoc], hc, ?_⟩
      intro x hx
      rcases List.mem_append.mp hx with hx | hx
      · exact processLines_notdone_all c (chunkLines c) hd x hx
      · exact hall x hx

/-- When no chunk of the stream sets `done`, the loop delivers all per-chunk
calls and then the end-of-stream or transport-error terminal call. -/
theorem streamLoop_exhausted (chunks : List (List Char)) (err : Option (List Char))
    (h : chunks.all (fun c => !(processChunk c).2) = true) :
    streamLoop chunks err
      = (chunks.map (fun c => (processChunk c).1)).flatten
        ++ [(some (.string (match err with | some e => errorText e | none => [])),
             some (.boolean true))] := by
  induction chunks with
  | nil => cases err <;> rfl
  | cons c cs ih =>
    simp only [List.all_cons, Bool.and_eq_true, Bool.not_eq_true'] at h
    simp only [streamLoop, h.1, Bool.false_eq_true, if_false, List.map_cons,
      List.flatten_cons, List.append_assoc]
    rw [ih h.2]

/-- C10: on every run of the streaming loop over a finite byte stream,
`onChunk` is invoked with a truthy `done` argument exactly once, as the
final call (the call sequence is falsy-`done` calls followed by one
truthy-`done` call); when the stream is exhausted with no decoded object
with truthy `done` the terminal call is `("", true)`; when a transport
error `e` is thrown mid-stream the terminal call is
`("Error: " ++ e, true)`. -/
theorem C10_stream_terminal_call :
    (∀ (chunks : List (List Char)) (err : Option (List Char)),
      ∃ p c, streamLoop chunks err = p ++ [c]
        ∧ jsTruthy c.2 = true ∧ ∀ x ∈ p, jsTruthy x.2 = false)
    ∧ (∀ chunks : List (List Char),
        chunks.all (fun c => !(processChunk c).2) = true →
        streamLoop chunks none
          = (chunks.map (fun c => (processChunk c).1)).flatten
            ++ [(some (.string []), some (.boolean true))])
    ∧ (∀ (chunks : List (List Char)) (e : List Char),
        chunks.all (fun c => !(processChunk c).2) = true →
        streamLoop chunks (some e)
          = (chunks.map (fun c => (processChunk c).1)).flatten
            ++ [(some (.string (errorText e)), some (.boolean true))]) := by
  refine ⟨streamLoop_split, ?_, ?_⟩
  · intro chunks h
    exact streamLoop_exhausted chunks none h
  · intro chunks e h
    exact streamLoop_exhausted chunks (some e) h

/-- Witness for C10: a one-chunk stream with no truthy-`done` object,
without and with a transport error. -/
theorem C10_stream_terminal_call_witness :
    (([str "\x7b\"response\":\"a\",\"done\":false\x7d"].all
        (fun c => !(processChunk c).2)) = true)
    ∧ streamLoop [str "\x7b\"response\":\"a\",\"done\":false\x7d"] none
        = ([str "\x7b\"response\":\"a\",\"done\":false\x7d"].map
            (fun c => (processChunk c).1)).flatten
          ++ [(some (.string []), some (.boolean true))]
    ∧ streamLoop [str "\x7b\"response\":\"a\",\"done\":false\x7d"] (some (str "boom"))
        = ([str "\x7b\"response\":\"a\",\"done\":false\x7d"].map
            (fun c => (processChunk c).1)).flatten
          ++ [(some (.string (errorText (str "boom"))), some (.boolean true))] :=
  ⟨rfl,
   C10_stream_terminal_call.2.1 [str "\x7b\"response\":\"a\",\"done\":false\x7d"] rfl,
   C10_stream_terminal_call.2.2 [str "\x7b\"response\":\"a\",\"done\":false\x7d"] (str "boom") rfl⟩

/-- C5 counterexample: the chunk `{"response":"b","done":true}\nx` cannot be
parsed as newline-delimited JSON (its line `x` is not valid JSON), yet it is
NOT passed to `onChunk` verbatim: the `done = true` call of the first line
ends the loop before the malformed line is reached, so the only call for
the whole stream is `("b", true)`. -/
theorem C5_malformed_after_done_counterexample :
    jsonParse (str "x") = none
    ∧ streamLoop [str "\x7b\"response\":\"b\",\"done\":true\x7d\nx"] none
        = [(some (.string (str "b")), some (.boolean true))]
    ∧ (some (.string (str "\x7b\"response\":\"b\",\"done\":true\x7d\nx")),
        some (.boolean false))
        ∉ streamLoop [str "\x7b\"response\":\"b\",\"done\":true\x7d\nx"] none := by
  refine ⟨rfl, rfl, ?_⟩
  intro hmem
  rw [show streamLoop [str "\x7b\"response\":\"b\",\"done\":true\x7d\nx"] none
      = [(some (.string (str "b")), some (.boolean true))] from rfl] at hmem
  simp only [List.mem_singleton, Prod.mk.injEq, Option.some.injEq] at hmem
  exact Bool.false_ne_true (Json.boolean.inj hmem.2)

/-- C5 amended: every byte chunk whose line-by-line JSON decoding throws at
some line before any decoded object with truthy `done` is passed to
`onChunk` verbatim as a raw chunk with `done = false`, as the final call
made for that chunk (the successfully decoded earlier lines keep their
calls, all with falsy `done`), and the chunk does not terminate the stream;
a chunk whose decoding reaches a truthy-`done` object first never triggers
the verbatim fallback. -/
theorem C5_malformed_chunk_passthrough (chunk : List Char)
    (h : failsBeforeDone (chunkLines chunk) = true) :
    ∃ p, (processChunk chunk).1
        = p ++ [(some (.string chunk), some (.boolean false))]
      ∧ (∀ x ∈ p, jsTruthy x.2 = false)
      ∧ (processChunk chunk).2 = false := by
  unfold processChunk
  have main : ∀ ls : List (List Char), failsBeforeDone ls = true →
      ∃ p, (processLines chunk ls).1
          = p ++ [(some (.string chunk), some (.boolean false))]
        ∧ (∀ x ∈ p, jsTruthy x.2 = false)
        ∧ (processLines chunk ls).2 = false := by
    intro ls hls
    induction ls with
    | nil => simp [failsBeforeDone] at hls
    | cons l rest ih =>
      cases hp : jsonDecodeLine l with
      | none =>
        refine ⟨[], ?_, by simp, ?_⟩ <;> simp [processLines, hp]
      | some v =>
        cases hd : jsTruthy (jsMember v (str "done")) with
        | true => simp [failsBeforeDone, hp, hd] at hls
        | false =>
          simp only [failsBeforeDone, hp] at hls
          simp only [hd, Bool.false_eq_true, if_false] at hls
          obtain ⟨p, hp1, hall, hdn⟩ := ih hls
          refine ⟨(jsMember v (str "response"), jsMember v (str "done")) :: p, ?_, ?_, ?_⟩
          · simp [processLines, hp, hd, hp1]
          · intro x hx
            rcases List.mem_cons.mp hx with hx | hx
            · rw [hx]; exact hd
            · exact hall x hx
          · simp [processLines, hp, hd, hdn]
  exact main (chunkLines chunk) h

/-- Witness for C5 amended at the unparseable chunk `junk`. -/
theorem C5_malformed_chunk_passthrough_witness :
    failsBeforeDone (chunkLines (str "junk")) = true
    ∧ (∃ p, (processChunk (str "junk")).1
          = p ++ [(some (.string (str "junk")), some (.boolean false))]
        ∧ (∀ x ∈ p, jsTruthy x.2 = false)
        ∧ (processChunk (str "junk")).2 = false) :=
  ⟨rfl, C5_malformed_chunk_passthrough (str "junk") rfl⟩

/-! ## Structure lemmas for the command extractor -/

/-- The closing fence is spelled out. -/
theorem fence_eq : str "```" = ['`', '`', '`'] := rfl

/-- `\s*` never consumes past a backtick. -/
theorem dropWhile_append_backtick (body r : List Char) :
    (body ++ '`' :: r).dropWhile isWsChar = body.dropWhile isWsChar ++ '`' :: r := by
  induction body with
  | nil => simp [List.dropWhile, isWsChar]
  | cons c cs ih => cases hc : isWsChar c <;> simp [List.dropWhile_cons, hc, ih]

/-- The lazy capture of a backtick-free text followed by a fence is exactly
that text. -/
theorem takeUntilTriple_append (l r : List Char) (h : '`' ∉ l) :
    takeUntilTriple (l ++ '`' :: '`' :: '`' :: r) = some (l, r) := by
  induction l with
  | nil => simp [takeUntilTriple, startsTriple]
  | cons c cs ih =>
    have hc : c ≠ '`' := fun e => h (by rw [e]; exact List.mem_cons_self _ _)
    have hs : startsTriple (c :: (cs ++ '`' :: '`' :: '`' :: r)) = false := by
      simp [startsTriple, hc]
    have ih2 := ih (fun hx => h (List.mem_cons_of_mem _ hx))
    simp [takeUntilTriple, hs, ih2]

/-- A backtick-free pattern is a prefix of `content ++ '`' :: r` exactly when
it is a prefix of `content`. -/
theorem isPrefixOf_append_backtick (pre : List Char) (content r : List Char)
    (hm : '`' ∉ pre) :
    pre.isPrefixOf (content ++ '`' :: r) = pre.isPrefixOf content := by
  induction pre generalizing content with
  | nil => simp [List.isPrefixOf]
  | cons p ps ih =>
    cases content with
    | nil =>
      have hp : (p == '`') = false := by
        simp only [beq_eq_false_iff_ne, ne_eq]
        exact fun e => hm (by rw [e]; exact List.mem_cons_self _ _)
      simp [List.isPrefixOf, hp]
    | cons c cc =>
      have ih2 := ih cc (fun hx => hm (List.mem_cons_of_mem _ hx))
      simp [List.isPrefixOf, ih2]

/-- The four language-tag alternatives, matched and consumed. -/
theorem matchTag_bash (rest : List Char) : matchTag (str "bash" ++ rest) = rest := by
  simp [matchTag, List.isPrefixOf, str]

/-- See `matchTag_bash`. -/
theorem matchTag_sh (rest : List Char) : matchTag (str "sh" ++ rest) = rest := by
  simp [matchTag, List.isPrefixOf, str]

/-- See `matchTag_bash`. -/
theorem matchTag_cmd (rest : List Char) : matchTag (str "cmd" ++ rest) = rest := by
  simp [matchTag, List.isPrefixOf, str]

/-- See `matchTag_bash`. -/
theorem matchTag_powershell (rest : List Char) :
    matchTag (str "powershell" ++ rest) = rest := by
  simp [matchTag, List.isPrefixOf, str]

/-- When none of the four alternatives is a prefix, the tag match is empty. -/
theorem matchTag_id (l : List Char)
    (h1 : (str "bash").isPrefixOf l = false) (h2 : (str "sh").isPrefixOf l = false)
    (h3 : (str "cmd").isPrefixOf l = false)
    (h4 : (str "powershell").isPrefixOf l = false) :
    matchTag l = l := by
  simp [matchTag, h1, h2, h3, h4]

/-- `findOneBlock` at an opening fence. -/
theorem findOneBlock_eq (t : List Char) :
    findOneBlock ('`' :: '`' :: '`' :: t)
      = takeUntilTriple ((matchTag t).dropWhile isWsChar) := by
  have hs : startsTriple ('`' :: '`' :: '`' :: t) = true := by simp [startsTriple]
  simp only [findOneBlock, hs, if_true, List.drop_succ_cons, List.drop_zero]
  cases takeUntilTriple ((matchTag t).dropWhile isWsChar) <;> rfl

/-- One unfolding step of the code-block regex loop. -/
theorem findBlocksAux_succ (n : Nat) (l : List Char) :
    findBlocksAux (n + 1) l
      = match findOneBlock l with
        | none => []
        | some (cap, rest) => cap :: findBlocksAux n rest := rfl

/-- The code-block regex loop on an empty remainder. -/
theorem findBlocksAux_nil (n : Nat) : findBlocksAux n [] = [] := by
  cases n <;> rfl

/-- The tag match always drops a (possibly empty) prefix. -/
theorem matchTag_drop (l : List Char) : ∃ k, matchTag l = l.drop k := by
  unfold matchTag
  split_ifs
  · exact ⟨4, rfl⟩
  · exact ⟨2, rfl⟩
  · exact ⟨3, rfl⟩
  · exact ⟨10, rfl⟩
  · exact ⟨0, by simp⟩

/-- The tag match preserves backtick-freeness. -/
theorem matchTag_no_backtick (l : List Char) (h : '`' ∉ l) : '`' ∉ matchTag l := by
  obtain ⟨k, hk⟩ := matchTag_drop l
  rw [hk]
  exact fun hx => h (List.mem_of_mem_drop hx)

/-- On backtick-free text followed by a backtick, the tag match is decided
by the text alone and the remainder is carried along. -/
theorem matchTag_append_backtick (b r : List Char) :
    matchTag (b ++ '`' :: r) = matchTag b ++ '`' :: r := by
  unfold matchTag
  rw [isPrefixOf_append_backtick _ _ _ (by decide),
      isPrefixOf_append_backtick _ _ _ (by decide),
      isPrefixOf_append_backtick _ _ _ (by decide),
      isPrefixOf_append_backtick _ _ _ (by decide)]
  split_ifs with h1 h2 h3 h4
  · exact List.drop_append_of_le_length (List.isPrefixOf_iff_prefix.mp h1).length_le
  · exact List.drop_append_of_le_length (List.isPrefixOf_iff_prefix.mp h2).length_le
  · exact List.drop_append_of_le_length (List.isPrefixOf_iff_prefix.mp h3).length_le
  · exact List.drop_append_of_le_length (List.isPrefixOf_iff_prefix.mp h4).length_le
  · rfl

/-- Scanning for an opening fence skips backtick-free text. -/
theorem findOneBlock_skip (p t : List Char) (hp : '`' ∉ p) :
    findOneBlock (p ++ t) = findOneBlock t := by
  induction p with
  | nil => rfl
  | cons c cs ih =>
    have hc : c ≠ '`' := fun e => hp (by rw [e]; exact List.mem_cons_self _ _)
    have hih := ih (fun hx => hp (List.mem_cons_of_mem _ hx))
    simp [findOneBlock, startsTriple, hc, hih]

/-- Backtick-free text contains no block at all. -/
theorem findOneBlock_none (l : List Char) (h : '`' ∉ l) : findOneBlock l = none := by
  have h2 := findOneBlock_skip l [] h
  rw [List.append_nil] at h2
  exact h2

/-- Every fenced document is at least as long as its block count. -/
theorem fencedDoc_length (p0 : List Char) (rest : List (List Char × List Char)) :
    rest.length ≤ (fencedDoc p0 rest).length := by
  induction rest generalizing p0 with
  | nil => simp
  | cons bp rest ih =>
    obtain ⟨b, p⟩ := bp
    have h := ih p
    have h3 : (str "```").length = 3 := rfl
    simp only [fencedDoc, List.length_append, List.length_cons]
    omega

/-- The code-block regex loop on a fenced document finds exactly the
blocks, in order, each captured as its content after the tag match and the
greedy whitespace skip. -/
theorem findBlocksAux_fenced (rest : List (List Char × List Char)) :
    ∀ (fuel : Nat) (p0 : List Char), '`' ∉ p0 →
    (∀ bp ∈ rest, '`' ∉ bp.1 ∧ '`' ∉ bp.2) →
    rest.length < fuel →
    findBlocksAux fuel (fencedDoc p0 rest)
      = rest.map (fun bp => (matchTag bp.1).dropWhile isWsChar) := by
  induction rest with
  | nil =>
    intro fuel p0 hp0 _ _
    cases fuel with
    | zero => rfl
    | succ n =>
      rw [findBlocksAux_succ, show fencedDoc p0 [] = p0 from rfl,
        findOneBlock_none _ hp0]
      rfl
  | cons bp rest ih =>
    intro fuel p0 hp0 hall hfuel
    simp only [List.length_cons] at hfuel
    obtain ⟨b, p⟩ := bp
    obtain ⟨hb, hpnext⟩ := hall (b, p) (List.mem_cons_self _ _)
    cases fuel with
    | zero => omega
    | succ f =>
      have hcap : '`' ∉ (matchTag b).dropWhile isWsChar :=
        fun hx => matchTag_no_backtick b hb ((List.dropWhile_sublist _).subset hx)
      have hone : findOneBlock (fencedDoc p0 ((b, p) :: rest))
          = some ((matchTag b).dropWhile isWsChar, fencedDoc p rest) := by
        have e1 : fencedDoc p0 ((b, p) :: rest)
            = p0 ++ ('`' :: '`' :: '`' :: (b ++ '`' :: '`' :: '`' :: fencedDoc p rest)) := by
          simp [fencedDoc, fence_eq]
        rw [e1, findOneBlock_skip _ _ hp0, findOneBlock_eq,
            matchTag_append_backtick _ _, dropWhile_append_backtick]
        exact takeUntilTriple_append _ _ hcap
      rw [findBlocksAux_succ, hone]
      show (matchTag b).dropWhile isWsChar :: findBlocksAux f (fencedDoc p rest) = _
      rw [ih f p hpnext (fun x hx => hall x (List.mem_cons_of_mem _ hx)) (by omega)]
      rfl

/-! ## Claims about the command extractor -/

/-- C6 counterexample: for the block ```` ```python\nls\n``` ```` the
declared language tag `python` IS one of the extracted lines — the regex
only consumes bash/sh/cmd/powershell tags, so any other tag lands in the
capture and survives the blank/comment filter. -/
theorem C6_tag_leak_counterexample :
    parseCommandsFromAI (str "```python\nls\n```") = [str "python", str "ls"]
    ∧ str "python" ∈ parseCommandsFromAI (str "```python\nls\n```") := by
  refine ⟨rfl, by decide⟩

/-- C6 amended: over every document made of fenced code blocks embedded in
backtick-free prose, the code-block pass appends, block by block in
document order, exactly the non-blank lines of each block capture that do
not start with `#` or `//`, trimmed, in in-block line order — where a block
capture is its content after the tag match and the following whitespace
skip (first conjunct; the prompt-marker pass that follows is outside this
claim and left symbolic).  The tag match consumes exactly a declared
`bash`, `sh`, `cmd` or `powershell` tag (second conjunct) and consumes
nothing when the content starts with no such tag, so a declared tag of any
other language stays in the capture as its first line and appears in the
output when it survives the blank/comment filter (third conjunct; the
counterexample exhibits `python` in the output). -/
theorem C6_extract_block_lines :
    (∀ (p0 : List Char) (rest : List (List Char × List Char)),
      '`' ∉ p0 →
      (∀ bp ∈ rest, '`' ∉ bp.1 ∧ '`' ∉ bp.2) →
      parseCommandsFromAI (fencedDoc p0 rest)
        = (rest.map (fun bp => cleanLines ((matchTag bp.1).dropWhile isWsChar))).flatten
          ++ (scanPrompts (fencedDoc p0 rest)).map trimChars)
    ∧ (∀ body : List Char,
        matchTag (str "bash" ++ body) = body
        ∧ matchTag (str "sh" ++ body) = body
        ∧ matchTag (str "cmd" ++ body) = body
        ∧ matchTag (str "powershell" ++ body) = body)
    ∧ (∀ content : List Char,
        (str "bash").isPrefixOf content = false →
        (str "sh").isPrefixOf content = false →
        (str "cmd").isPrefixOf content = false →
        (str "powershell").isPrefixOf content = false →
        matchTag content = content) := by
  refine ⟨?_, ?_, matchTag_id⟩
  · intro p0 rest hp0 hall
    have hfb : findBlocks (fencedDoc p0 rest)
        = rest.map (fun bp => (matchTag bp.1).dropWhile isWsChar) := by
      unfold findBlocks
      refine findBlocksAux_fenced rest _ p0 hp0 hall ?_
      have := fencedDoc_length p0 rest
      omega
    unfold parseCommandsFromAI
    rw [hfb, List.map_map]
    rfl
  · intro body
    exact ⟨matchTag_bash body, matchTag_sh body, matchTag_cmd body,
      matchTag_powershell body⟩

/-- Witness for C6 amended: a two-block document — a `bash`-tagged block
whose tag is consumed and a `python`-tagged block whose tag is kept —
embedded in prose containing a prompt marker, plus the no-tag-consumed fact
at the `python` content. -/
theorem C6_extract_block_lines_witness :
    parseCommandsFromAI
        (fencedDoc (str "hi\n")
          [(str "bash\n# c\nls\n", str "\n$ run\n"), (str "python\nprint x\n", str "tail")])
      = ([(str "bash\n# c\nls\n", str "\n$ run\n"), (str "python\nprint x\n", str "tail")].map
          (fun bp => cleanLines ((matchTag bp.1).dropWhile isWsChar))).flatten
        ++ (scanPrompts
            (fencedDoc (str "hi\n")
              [(str "bash\n# c\nls\n", str "\n$ run\n"),
               (str "python\nprint x\n", str "tail")])).map trimChars
    ∧ matchTag (str "python\nls") = str "python\nls" :=
  ⟨C6_extract_block_lines.1 (str "hi\n")
      [(str "bash\n# c\nls\n", str "\n$ run\n"), (str "python\nprint x\n", str "tail")]
      (by decide) (by decide),
   C6_extract_block_lines.2.2 (str "python\nls")
      (by decide) (by decide) (by decide) (by decide)⟩

end CodeWizard
